import Mathlib

/-!
# Verification of the mose-melody Morse timeline engine

Shallow embedding of the repository's encoding/timeline engine:

* `src/utils/morseMapping.ts` — `MORSE_MAP`, `decomposeHangul`, `textToMorse`;
* `src/services/audioEngine.ts` — `AudioEngine.generateTimeline` (the current
  engine: `DOT_TIME = 0.14`, dash = 4 units, hash-based pitch selection);
* the theme-assembly boundary `buildManualTheme` and `DEFAULT_THEME` from the
  application layer (`types.ts`).

Modelling conventions:

* A JS string is modelled as a `List ℕ` of its UTF-16 code units
  (`charCodeAt`); `toUpperCase` is modelled as a code-unit expansion that
  covers ASCII `a`–`z` and every Unicode uppercasing whose output contains
  a `MORSE_MAP` character (ß→SS, ı→I, ſ→S, ŉ, ǰ, ẖ ẗ ẘ ẙ ẚ, and the
  U+FB00–FB06 ligatures); all other characters uppercase to themselves or
  to characters the codec skips either way.
* Times are exact rationals (`ℚ`); `DOT_TIME = 0.14 = 7/50`.
* A note frequency `baseFrequency * 2 ^ (semis / 12)` is represented by the
  pair `(baseFrequency, semis)`; equal pairs denote equal real frequencies,
  and the pair is exactly what `getFrequency` computes before exponentiation.
-/

namespace MoseMelody

/-- `MorseSymbol` from `types.ts`: `DOT='.'`, `DASH='-'`, `SPACE=' '`
(between letters), `WORD_SPACE='/'` (between words). -/
inductive MorseSym : Type
  | dot
  | dash
  | space
  | wordSpace
deriving DecidableEq, Repr

/-- `PlaybackEvent.type` — `'note' | 'silence'`. -/
inductive EventType : Type
  | note
  | silence
deriving DecidableEq, Repr

/-- `PlaybackEvent` from `types.ts`.  `frequency` stores the pair
`(baseFrequency, total semitone offset)` standing for
`baseFrequency * 2 ^ (semis / 12)` Hz; `char` stores the UTF-16 code unit of
the decomposed source unit. -/
structure PlaybackEvent : Type where
  type : EventType
  startTime : ℚ
  duration : ℚ
  symbol : Option MorseSym
  frequency : Option (ℚ × ℤ)
  char : Option ℕ
deriving DecidableEq, Repr

/-- `OscillatorType` values used by the themes. -/
inductive Waveform : Type
  | sine
  | triangle
  | square
  | sawtooth
deriving DecidableEq, Repr

/-- `ThemeConfig` from `types.ts`.  Only `baseFrequency`, `tempoMultiplier`
and `scale` are read by `generateTimeline`; the other fields are carried for
fidelity. -/
structure ThemeConfig : Type where
  mood : String
  primaryColor : String
  secondaryColor : String
  waveform : Waveform
  baseFrequency : ℚ
  tempoMultiplier : ℚ
  scale : List ℤ
deriving DecidableEq, Repr

/-- `DEFAULT_THEME` from `types.ts`. -/
def DEFAULT_THEME : ThemeConfig :=
  { mood := "Neutral"
    primaryColor := "#38bdf8"
    secondaryColor := "#ffffff"
    waveform := .sine
    baseFrequency := 440
    tempoMultiplier := 1
    scale := [0, 2, 4, 7, 9] }

/-- `MORSE_MAP` from `morseMapping.ts`, keyed by UTF-16 code unit.  Every
code string consists of dots and dashes only.  Latin letters `A`–`Z` (65–90),
digits, punctuation, and the Hangul compatibility jamo (U+3131–U+3163). -/
def morseMap : ℕ → Option (List MorseSym)
  | 65 => some [.dot, .dash]                             -- A  .-
  | 66 => some [.dash, .dot, .dot, .dot]                 -- B  -...
  | 67 => some [.dash, .dot, .dash, .dot]                -- C  -.-.
  | 68 => some [.dash, .dot, .dot]                       -- D  -..
  | 69 => some [.dot]                                    -- E  .
  | 70 => some [.dot, .dot, .dash, .dot]                 -- F  ..-.
  | 71 => some [.dash, .dash, .dot]                      -- G  --.
  | 72 => some [.dot, .dot, .dot, .dot]                  -- H  ....
  | 73 => some [.dot, .dot]                              -- I  ..
  | 74 => some [.dot, .dash, .dash, .dash]               -- J  .---
  | 75 => some [.dash, .dot, .dash]                      -- K  -.-
  | 76 => some [.dot, .dash, .dot, .dot]                 -- L  .-..
  | 77 => some [.dash, .dash]                            -- M  --
  | 78 => some [.dash, .dot]                             -- N  -.
  | 79 => some [.dash, .dash, .dash]                     -- O  ---
  | 80 => some [.dot, .dash, .dash, .dot]                -- P  .--.
  | 81 => some [.dash, .dash, .dot, .dash]               -- Q  --.-
  | 82 => some [.dot, .dash, .dot]                       -- R  .-.
  | 83 => some [.dot, .dot, .dot]                        -- S  ...
  | 84 => some [.dash]                                   -- T  -
  | 85 => some [.dot, .dot, .dash]                       -- U  ..-
  | 86 => some [.dot, .dot, .dot, .dash]                 -- V  ...-
  | 87 => some [.dot, .dash, .dash]                      -- W  .--
  | 88 => some [.dash, .dot, .dot, .dash]                -- X  -..-
  | 89 => some [.dash, .dot, .dash, .dash]               -- Y  -.--
  | 90 => some [.dash, .dash, .dot, .dot]                -- Z  --..
  | 49 => some [.dot, .dash, .dash, .dash, .dash]        -- 1  .----
  | 50 => some [.dot, .dot, .dash, .dash, .dash]         -- 2  ..---
  | 51 => some [.dot, .dot, .dot, .dash, .dash]          -- 3  ...--
  | 52 => some [.dot, .dot, .dot, .dot, .dash]           -- 4  ....-
  | 53 => some [.dot, .dot, .dot, .dot, .dot]            -- 5  .....
  | 54 => some [.dash, .dot, .dot, .dot, .dot]           -- 6  -....
  | 55 => some [.dash, .dash, .dot, .dot, .dot]          -- 7  --...
  | 56 => some [.dash, .dash, .dash, .dot, .dot]         -- 8  ---..
  | 57 => some [.dash, .dash, .dash, .dash, .dot]        -- 9  ----.
  | 48 => some [.dash, .dash, .dash, .dash, .dash]       -- 0  -----
  | 46 => some [.dot, .dash, .dot, .dash, .dot, .dash]   -- .  .-.-.-
  | 44 => some [.dash, .dash, .dot, .dot, .dash, .dash]  -- ,  --..--
  | 63 => some [.dot, .dot, .dash, .dash, .dot, .dot]    -- ?  ..--..
  | 39 => some [.dot, .dash, .dash, .dash, .dash, .dot]  -- apostrophe  .----.
  | 33 => some [.dash, .dot, .dash, .dot, .dash, .dash]  -- !  -.-.--
  | 47 => some [.dash, .dot, .dot, .dash, .dot]          -- /  -..-.
  | 40 => some [.dash, .dot, .dash, .dash, .dot]         -- (  -.--.
  | 41 => some [.dash, .dot, .dash, .dash, .dot, .dash]  -- )  -.--.-
  | 38 => some [.dot, .dash, .dot, .dot, .dot]           -- &  .-...
  | 58 => some [.dash, .dash, .dash, .dot, .dot, .dot]   -- :  ---...
  | 59 => some [.dash, .dot, .dash, .dot, .dash, .dot]   -- ;  -.-.-.
  | 61 => some [.dash, .dot, .dot, .dot, .dash]          -- =  -...-
  | 43 => some [.dot, .dash, .dot, .dash, .dot]          -- +  .-.-.
  | 45 => some [.dash, .dot, .dot, .dot, .dot, .dash]    -- -  -....-
  | 95 => some [.dot, .dot, .dash, .dash, .dot, .dash]   -- _  ..--.-
  | 34 => some [.dot, .dash, .dot, .dot, .dash, .dot]    -- "  .-..-.
  | 36 => some [.dot, .dot, .dot, .dash, .dot, .dot, .dash] -- $  ...-..-
  | 64 => some [.dot, .dash, .dash, .dot, .dash, .dot]   -- @  .--.-.
  | 0x3131 => some [.dot, .dash, .dot, .dot]             -- ㄱ  .-..
  | 0x3134 => some [.dot, .dot, .dash, .dot]             -- ㄴ  ..-.
  | 0x3137 => some [.dash, .dot, .dot, .dot]             -- ㄷ  -...
  | 0x3139 => some [.dot, .dot, .dot, .dash]             -- ㄹ  ...-
  | 0x3141 => some [.dash, .dash]                        -- ㅁ  --
  | 0x3142 => some [.dot, .dash, .dash]                  -- ㅂ  .--
  | 0x3145 => some [.dash, .dash, .dot]                  -- ㅅ  --.
  | 0x3147 => some [.dash, .dot, .dash]                  -- ㅇ  -.-
  | 0x3148 => some [.dot, .dash, .dash, .dot]            -- ㅈ  .--.
  | 0x314A => some [.dash, .dot, .dash, .dot]            -- ㅊ  -.-.
  | 0x314B => some [.dash, .dot, .dot, .dash]            -- ㅋ  -..-
  | 0x314C => some [.dash, .dash, .dot, .dot]            -- ㅌ  --..
  | 0x314D => some [.dash, .dash, .dash]                 -- ㅍ  ---
  | 0x314E => some [.dot, .dash, .dash, .dash]           -- ㅎ  .---
  | 0x314F => some [.dot]                                -- ㅏ  .
  | 0x3151 => some [.dot, .dot]                          -- ㅑ  ..
  | 0x3153 => some [.dash]                               -- ㅓ  -
  | 0x3155 => some [.dot, .dot, .dot]                    -- ㅕ  ...
  | 0x3157 => some [.dot, .dash]                         -- ㅗ  .-
  | 0x315B => some [.dash, .dot]                         -- ㅛ  -.
  | 0x315C => some [.dot, .dot, .dot, .dot]              -- ㅜ  ....
  | 0x3160 => some [.dot, .dash, .dot]                   -- ㅠ  .-.
  | 0x3161 => some [.dash, .dot, .dot]                   -- ㅡ  -..
  | 0x3163 => some [.dot, .dot, .dash]                   -- ㅣ  ..-
  | 0x3150 => some [.dash, .dash, .dot, .dash]           -- ㅐ  --.-
  | 0x3154 => some [.dash, .dot, .dash, .dash]           -- ㅔ  -.--
  | _ => none

/-- The `initials` table of `decomposeHangul` (19 initial consonants, in
Unicode compatibility-jamo code points):
ㄱㄲㄴㄷㄸㄹㅁㅂㅃㅅㅆㅇㅈㅉㅊㅋㅌㅍㅎ. -/
def initials : List ℕ :=
  [0x3131, 0x3132, 0x3134, 0x3137, 0x3138, 0x3139, 0x3141, 0x3142, 0x3143,
   0x3145, 0x3146, 0x3147, 0x3148, 0x3149, 0x314A, 0x314B, 0x314C, 0x314D,
   0x314E]

/-- The `medials` table of `decomposeHangul` (21 medial vowels):
ㅏㅐㅑㅒㅓㅔㅕㅖㅗㅘㅙㅚㅛㅜㅝㅞㅟㅠㅡㅢㅣ. -/
def medials : List ℕ :=
  [0x314F, 0x3150, 0x3151, 0x3152, 0x3153, 0x3154, 0x3155, 0x3156, 0x3157,
   0x3158, 0x3159, 0x315A, 0x315B, 0x315C, 0x315D, 0x315E, 0x315F, 0x3160,
   0x3161, 0x3162, 0x3163]

/-- The `finals` table of `decomposeHangul` (28 entries; index 0 is the empty
string in the source, modelled as 0 and never dereferenced since the code
guards `final !== 0`): ·ㄱㄲㄳㄴㄵㄶㄷㄹㄺㄻㄼㄽㄾㄿㅀㅁㅂㅄㅅㅆㅇㅈㅊㅋㅌㅍㅎ. -/
def finals : List ℕ :=
  [0, 0x3131, 0x3132, 0x3133, 0x3134, 0x3135, 0x3136, 0x3137, 0x3139, 0x313A,
   0x313B, 0x313C, 0x313D, 0x313E, 0x313F, 0x3140, 0x3141, 0x3142, 0x3144,
   0x3145, 0x3146, 0x3147, 0x3148, 0x314A, 0x314B, 0x314C, 0x314D, 0x314E]

/-- The initial-consonant branch of `decomposeHangul`: tense (double)
consonants are replaced by two copies of their base consonant, everything
else is passed through. -/
def decomposeInitialPart (iChar : ℕ) : List ℕ :=
  if iChar = 0x3132 then [0x3131, 0x3131]          -- ㄲ → ㄱ ㄱ
  else if iChar = 0x3138 then [0x3137, 0x3137]     -- ㄸ → ㄷ ㄷ
  else if iChar = 0x3143 then [0x3142, 0x3142]     -- ㅃ → ㅂ ㅂ
  else if iChar = 0x3146 then [0x3145, 0x3145]     -- ㅆ → ㅅ ㅅ
  else if iChar = 0x3149 then [0x3148, 0x3148]     -- ㅉ → ㅈ ㅈ
  else [iChar]

/-- The medial-vowel branch of `decomposeHangul`: vowels present in
`MORSE_MAP` are passed through, compound vowels are decomposed into their
two components (with the source's approximations for ㅒ and ㅖ). -/
def decomposeMedialPart (mChar : ℕ) : List ℕ :=
  if (morseMap mChar).isSome then [mChar]
  else if mChar = 0x3158 then [0x3157, 0x314F]     -- ㅘ → ㅗ ㅏ
  else if mChar = 0x3159 then [0x3157, 0x3150]     -- ㅙ → ㅗ ㅐ
  else if mChar = 0x315A then [0x3157, 0x3163]     -- ㅚ → ㅗ ㅣ
  else if mChar = 0x315D then [0x315C, 0x3153]     -- ㅝ → ㅜ ㅓ
  else if mChar = 0x315E then [0x315C, 0x3154]     -- ㅞ → ㅜ ㅔ
  else if mChar = 0x315F then [0x315C, 0x3163]     -- ㅟ → ㅜ ㅣ
  else if mChar = 0x3162 then [0x3161, 0x3163]     -- ㅢ → ㅡ ㅣ
  else if mChar = 0x3152 then [0x3151, 0x3163]     -- ㅒ → ㅑ ㅣ (approximate)
  else if mChar = 0x3156 then [0x3155, 0x3163]     -- ㅖ → ㅕ ㅣ (approximate)
  else [mChar]

/-- The final-consonant branch of `decomposeHangul`: tense consonants and
consonant clusters are decomposed into two primitives, everything else is
passed through. -/
def decomposeFinalPart (fChar : ℕ) : List ℕ :=
  if fChar = 0x3132 then [0x3131, 0x3131]          -- ㄲ → ㄱ ㄱ
  else if fChar = 0x3133 then [0x3131, 0x3145]     -- ㄳ → ㄱ ㅅ
  else if fChar = 0x3135 then [0x3134, 0x3148]     -- ㄵ → ㄴ ㅈ
  else if fChar = 0x3136 then [0x3134, 0x314E]     -- ㄶ → ㄴ ㅎ
  else if fChar = 0x313A then [0x3139, 0x3131]     -- ㄺ → ㄹ ㄱ
  else if fChar = 0x313B then [0x3139, 0x3141]     -- ㄻ → ㄹ ㅁ
  else if fChar = 0x313C then [0x3139, 0x3142]     -- ㄼ → ㄹ ㅂ
  else if fChar = 0x313D then [0x3139, 0x3145]     -- ㄽ → ㄹ ㅅ
  else if fChar = 0x313E then [0x3139, 0x314C]     -- ㄾ → ㄹ ㅌ
  else if fChar = 0x313F then [0x3139, 0x314D]     -- ㄿ → ㄹ ㅍ
  else if fChar = 0x3140 then [0x3139, 0x314E]     -- ㅀ → ㄹ ㅎ
  else if fChar = 0x3144 then [0x3142, 0x3145]     -- ㅄ → ㅂ ㅅ
  else if fChar = 0x3146 then [0x3145, 0x3145]     -- ㅆ → ㅅ ㅅ
  else [fChar]

/-- `decomposeHangul` from `morseMapping.ts`: characters outside the Hangul
syllable block U+AC00–U+D7A3 are returned unchanged; a syllable is split by
the block-offset arithmetic `initial = offset div 588`,
`medial = (offset mod 588) div 28`, `final = offset mod 28`, and each
resulting jamo is passed through its compound-decomposition branch (the
final part only when `final ≠ 0`). -/
def decomposeHangul (c : ℕ) : List ℕ :=
  if c < 0xAC00 ∨ 0xD7A3 < c then [c]
  else
    decomposeInitialPart (initials.getD ((c - 0xAC00) / 588) 0) ++
      decomposeMedialPart (medials.getD (((c - 0xAC00) % 588) / 28) 0) ++
      (if (c - 0xAC00) % 28 ≠ 0 then
        decomposeFinalPart (finals.getD ((c - 0xAC00) % 28) 0)
      else [])

/-- `String.prototype.toUpperCase` on one UTF-16 code unit, as the list of
code units it expands to.  Beyond ASCII `a`–`z`, these are exactly the
Unicode uppercasings whose output contains a `MORSE_MAP` character: the
simple mappings ı→I and ſ→S, and the special casings ß→SS, ŉ→ʼN, ǰ→J+U+030C,
ẖ→H+U+0331, ẗ→T+U+0308, ẘ→W+U+030A, ẙ→Y+U+030A, ẚ→A+U+02BE, and the Latin
ligatures ﬀ ﬁ ﬂ ﬃ ﬄ ﬅ ﬆ (U+FB00–FB06) → FF FI FL FFI FFL ST ST.  Every
other code unit uppercases either to itself or only to characters with no
`MORSE_MAP` entry (Greek, Armenian, Cyrillic, fullwidth forms, …), which
the codec skips exactly as it skips the character itself, so identity is
observationally faithful for the decomposed-unit stream there.  Case
conversion never produces a space, a digit, punctuation, a jamo or a
Hangul syllable. -/
def toUpperCU (c : ℕ) : List ℕ :=
  if 97 ≤ c ∧ c ≤ 122 then [c - 32]
  else if c = 0xDF then [83, 83]           -- ß  → SS
  else if c = 0x131 then [73]              -- ı  → I
  else if c = 0x17F then [83]              -- ſ  → S
  else if c = 0x149 then [0x2BC, 78]       -- ŉ  → ʼN
  else if c = 0x1F0 then [74, 0x30C]       -- ǰ  → J + combining caron
  else if c = 0x1E96 then [72, 0x331]      -- ẖ  → H + combining macron below
  else if c = 0x1E97 then [84, 0x308]      -- ẗ  → T + combining diaeresis
  else if c = 0x1E98 then [87, 0x30A]      -- ẘ  → W + combining ring above
  else if c = 0x1E99 then [89, 0x30A]      -- ẙ  → Y + combining ring above
  else if c = 0x1E9A then [65, 0x2BE]      -- ẚ  → A + modifier half ring
  else if c = 0xFB00 then [70, 70]         -- ﬀ  → FF
  else if c = 0xFB01 then [70, 73]         -- ﬁ  → FI
  else if c = 0xFB02 then [70, 76]         -- ﬂ  → FL
  else if c = 0xFB03 then [70, 70, 73]     -- ﬃ  → FFI
  else if c = 0xFB04 then [70, 70, 76]     -- ﬄ  → FFL
  else if c = 0xFB05 then [83, 84]         -- ﬅ  → ST
  else if c = 0xFB06 then [83, 84]         -- ﬆ  → ST
  else [c]

/-- `text.toUpperCase()`: the whole string is uppercased at once (as the
source does, before its character loop), concatenating the per-unit
expansions. -/
def toUpperStr (text : List ℕ) : List ℕ :=
  text.flatMap toUpperCU

/-- The character loop of `textToMorse` from `morseMapping.ts`, over the
already-uppercased string: a space becomes a word-space marker unit
(code 32); a Hangul syllable (U+AC00–U+D7A3) is decomposed into jamo of
which exactly the `MORSE_MAP`-mapped ones are kept; a directly mapped
character is kept; an unmapped character is silently dropped. -/
def decomposedOfUpper : List ℕ → List ℕ
  | [] => []
  | ch :: rest =>
    if ch = 32 then
      32 :: decomposedOfUpper rest
    else if 0xAC00 ≤ ch ∧ ch ≤ 0xD7A3 then
      (decomposeHangul ch).filter (fun j => (morseMap j).isSome) ++
        decomposedOfUpper rest
    else if (morseMap ch).isSome then
      ch :: decomposedOfUpper rest
    else
      decomposedOfUpper rest

/-- The `decomposed` field of `textToMorse`: uppercase the whole text, then
walk its code units. -/
def textToMorseDecomposed (text : List ℕ) : List ℕ :=
  decomposedOfUpper (toUpperStr text)

/-- The semitone offset computed by `getFrequency` in
`audioEngine.ts` for the `k`-th non-space decomposed unit (0-based).  In the
source, `pos = charIndex++` and `noteSequence++` both advance once per call,
so at the `k`-th call `pos = k` and `noteSequence = k + 1`. -/
def freqSemis (textLen : ℕ) (scale : List ℤ) (charCode k : ℕ) : ℤ :=
  let pos := k
  let noteSequence := k + 1
  let hash1 := (charCode * 17 + pos * 31) % 1000
  let hash2 := (textLen * 7 + noteSequence * 13) % 1000
  let combinedHash := (hash1 + hash2) % 1000
  let baseIndex := pos % scale.length
  let hashIndex := combinedHash % scale.length
  let scaleIndex := (baseIndex + hashIndex) % scale.length
  let semitoneOffset := scale.getD scaleIndex 0
  let octaveShift : ℤ :=
    if combinedHash % 3 = 0 then
      if combinedHash % 5 = 0 then 12
      else if combinedHash % 5 = 1 then -12
      else if combinedHash % 5 = 2 then 24
      else 0
    else 0
  let fineTune : ℤ :=
    if combinedHash % 7 = 0 then ((combinedHash : ℤ) % 7) - 3 else 0
  semitoneOffset + octaveShift + fineTune

/-- `getFrequency` of `generateTimeline`: the returned pair
`(baseFrequency, semis)` represents `baseFrequency * 2 ^ (semis / 12)` Hz.
It is a pure function of the text length, the theme, the unit's character
code and the unit's 0-based position `k` among non-space units. -/
def getFrequency (textLen : ℕ) (th : ThemeConfig) (charCode k : ℕ) : ℚ × ℤ :=
  (th.baseFrequency, freqSemis textLen th.scale charCode k)

/-- One iteration of the symbol loop of `generateTimeline`: a dot emits a
note of one unit, a dash a note of four units (`duration: unitTime * 4` in
`audioEngine.ts`); any other symbol emits nothing (unreachable for real
codes, which consist of dots and dashes only). -/
def symStep (u : ℚ) (fq : ℚ × ℤ) (c : ℕ) (s : MorseSym) (t : ℚ) :
    List PlaybackEvent × ℚ :=
  match s with
  | .dot => ([⟨.note, t, u, some .dot, some fq, some c⟩], t + u)
  | .dash => ([⟨.note, t, 4 * u, some .dash, some fq, some c⟩], t + 4 * u)
  | _ => ([], t)

/-- The symbol loop of `generateTimeline` over one unit's Morse code: after
every symbol except the last (`i < code.length - 1` in the source), an
unnamed inter-element silence of one unit is inserted. -/
def symEvents (u : ℚ) (fq : ℚ × ℤ) (c : ℕ) :
    List MorseSym → ℚ → List PlaybackEvent × ℚ
  | [], t => ([], t)
  | [s], t => symStep u fq c s t
  | s :: r :: rs, t =>
    ((symStep u fq c s t).1 ++
       ⟨.silence, (symStep u fq c s t).2, u, none, none, none⟩ ::
         (symEvents u fq c (r :: rs) ((symStep u fq c s t).2 + u)).1,
     (symEvents u fq c (r :: rs) ((symStep u fq c s t).2 + u)).2)

/-- Processing of one non-space decomposed unit: its Morse code (the source
re-runs `textToMorse` on the single character and trims, which for a unit in
the decomposed stream is exactly the `MORSE_MAP` entry), followed by the
inter-character silence of three units carrying `MorseSymbol.SPACE`. -/
def unitEvents (u : ℚ) (fq : ℚ × ℤ) (c : ℕ) (t : ℚ) :
    List PlaybackEvent × ℚ :=
  ((symEvents u fq c ((morseMap c).getD []) t).1 ++
     [⟨.silence, (symEvents u fq c ((morseMap c).getD []) t).2, 3 * u,
       some .space, none, none⟩],
   (symEvents u fq c ((morseMap c).getD []) t).2 + 3 * u)

/-- The `decomposed.forEach` walk of `generateTimeline`: a space unit emits a
word-space silence of seven units; any other unit emits its Morse events
with a frequency drawn once per unit (`k` counts the non-space units, the
`getFrequency` call counter). -/
def unitsEvents (textLen : ℕ) (th : ThemeConfig) (u : ℚ) :
    List ℕ → ℚ → ℕ → List PlaybackEvent × ℚ
  | [], t, _ => ([], t)
  | c :: rest, t, k =>
    if c = 32 then
      (⟨.silence, t, 7 * u, some .wordSpace, none, none⟩ ::
         (unitsEvents textLen th u rest (t + 7 * u) k).1,
       (unitsEvents textLen th u rest (t + 7 * u) k).2)
    else
      ((unitEvents u (getFrequency textLen th c k) c t).1 ++
         (unitsEvents textLen th u rest
           (unitEvents u (getFrequency textLen th c k) c t).2 (k + 1)).1,
       (unitsEvents textLen th u rest
         (unitEvents u (getFrequency textLen th c k) c t).2 (k + 1)).2)

/-- `DOT_TIME = 0.14` seconds, the base dot duration of
`src/services/audioEngine.ts`. -/
def DOT_TIME : ℚ := 14 / 100

/-- `AudioEngine.generateTimeline(text, theme)`: decompose the text, walk the
units at `unitTime = DOT_TIME / tempoMultiplier`, and append the fixed
trailing padding silence of 2.0 seconds. -/
def generateTimeline (text : List ℕ) (th : ThemeConfig) : List PlaybackEvent :=
  (unitsEvents text.length th (DOT_TIME / th.tempoMultiplier)
      (textToMorseDecomposed text) 0 0).1 ++
    [⟨.silence,
      (unitsEvents text.length th (DOT_TIME / th.tempoMultiplier)
        (textToMorseDecomposed text) 0 0).2, 2, none, none, none⟩]

/-- The engine instance state read or written by `generateTimeline`: only the
`events` field (`this.events = events`); `DOT_TIME` is a readonly constant. -/
structure EngineState : Type where
  events : List PlaybackEvent
deriving DecidableEq, Repr

/-- `generateTimeline` as the engine-state transition it is in the source:
it computes the event list from its arguments alone and stores it in
`this.events`. -/
def engineGenerateTimeline (s : EngineState) (text : List ℕ)
    (th : ThemeConfig) : List PlaybackEvent × EngineState :=
  let _ := s
  let evs := generateTimeline text th
  (evs, ⟨evs⟩)

/-- Sum of the durations of a list of events. -/
def sumDur (evs : List PlaybackEvent) : ℚ :=
  (evs.map PlaybackEvent.duration).sum

/-- `ChainedFrom t evs`: the events start exactly at the running time `t`,
each one beginning where the previous one ends (the fully packed timeline
invariant). -/
def ChainedFrom : ℚ → List PlaybackEvent → Prop
  | _, [] => True
  | t, e :: rest => e.startTime = t ∧ ChainedFrom (t + e.duration) rest

/-- Halving of an event's time coordinates (what doubling the tempo is
claimed to do to every event). -/
def scaleHalf (e : PlaybackEvent) : PlaybackEvent :=
  { e with startTime := e.startTime / 2, duration := e.duration / 2 }

/-- Forget an event's frequency (used to compare timelines up to pitch). -/
def eraseFreq (e : PlaybackEvent) : PlaybackEvent :=
  { e with frequency := none }

/-- A character that `textToMorse` silently drops: every code unit of its
uppercasing is neither a space, nor a Hangul syllable, nor in `MORSE_MAP`.
(A case-convertible character such as ſ U+017F is *not* skipped: it
uppercases to the mapped `S`.) -/
def UnmappedSkipped (c : ℕ) : Prop :=
  ∀ u ∈ toUpperCU c,
    u ≠ 32 ∧ ¬(0xAC00 ≤ u ∧ u ≤ 0xD7A3) ∧ morseMap u = none

instance (c : ℕ) : Decidable (UnmappedSkipped c) := by
  unfold UnmappedSkipped; infer_instance

/-- Number of non-space units in a list: the amount by which the
`getFrequency` call counter (`charIndex`/`noteSequence`) advances while
processing these units. -/
def nonSpaceCount (l : List ℕ) : ℕ :=
  (l.filter (fun c => c != 32)).length

/-- The compound jamo of `decomposeHangul`'s substitution tables: tense
consonants, final consonant clusters, and compound vowels. -/
def isCompoundJamo (j : ℕ) : Bool :=
  j ∈ [0x3132, 0x3138, 0x3143, 0x3146, 0x3149,            -- ㄲㄸㅃㅆㅉ
       0x3133, 0x3135, 0x3136, 0x313A, 0x313B, 0x313C,    -- ㄳㄵㄶㄺㄻㄼ
       0x313D, 0x313E, 0x313F, 0x3140, 0x3144,            -- ㄽㄾㄿㅀㅄ
       0x3152, 0x3156, 0x3158, 0x3159, 0x315A,            -- ㅒㅖㅘㅙㅚ
       0x315D, 0x315E, 0x315F, 0x3162]                    -- ㅝㅞㅟㅢ

/-- Well-formedness of one decomposition part: a compound jamo expands to
exactly two jamo, a primitive jamo stays itself; every emitted jamo is
primitive and has a direct `MORSE_MAP` entry. -/
def jamoDecompOk (base : ℕ) (l : List ℕ) : Bool :=
  (if isCompoundJamo base then decide (l.length = 2) else decide (l = [base]))
    && l.all (fun j => (morseMap j).isSome)
    && l.all (fun j => !isCompoundJamo j)

/-- The user selections consumed by `buildManualTheme` (`''` sentinel values
modelled as `none` / the empty string, matching the JS falsiness tests). -/
structure ManualSelections : Type where
  selectedMood : String
  selectedWaveform : Option Waveform
  selectedBaseFreq : Option ℚ
  selectedTempo : Option ℚ
  selectedScale : String
deriving DecidableEq, Repr

/-- The `scalePresets` table of the application layer. -/
def scalePresets : String → Option (List ℤ)
  | "major" => some [0, 2, 4, 7, 9]
  | "minor" => some [0, 3, 5, 7, 10]
  | "dreamy" => some [0, 2, 5, 9, 11]
  | "dark" => some [0, 1, 4, 6, 10]
  | _ => none

/-- `buildManualTheme` from the application layer: each selection is taken
only when it passes its guard (`baseFreq > 50`, `tempo > 0.2`, a known scale
preset), otherwise the corresponding `DEFAULT_THEME` field is kept. -/
def buildManualTheme (sel : ManualSelections) : ThemeConfig :=
  let base := DEFAULT_THEME
  { base with
    mood := if sel.selectedMood = "" then base.mood else sel.selectedMood
    waveform := sel.selectedWaveform.getD base.waveform
    baseFrequency :=
      match sel.selectedBaseFreq with
      | some f => if 50 < f then f else base.baseFrequency
      | none => base.baseFrequency
    tempoMultiplier :=
      match sel.selectedTempo with
      | some tm => if 1 / 5 < tm then tm else base.tempoMultiplier
      | none => base.tempoMultiplier
    scale :=
      if sel.selectedScale = "" then base.scale
      else (scalePresets sel.selectedScale).getD base.scale }

/-! ## Structural lemmas: the timeline is fully packed -/

theorem sumDur_nil : sumDur [] = 0 := rfl

theorem sumDur_cons (e : PlaybackEvent) (l : List PlaybackEvent) :
    sumDur (e :: l) = e.duration + sumDur l := by
  simp [sumDur]

theorem sumDur_append (l₁ l₂ : List PlaybackEvent) :
    sumDur (l₁ ++ l₂) = sumDur l₁ + sumDur l₂ := by
  simp [sumDur]

theorem chainedFrom_append {t : ℚ} {l₁ l₂ : List PlaybackEvent}
    (h₁ : ChainedFrom t l₁) (h₂ : ChainedFrom (t + sumDur l₁) l₂) :
    ChainedFrom t (l₁ ++ l₂) := by
  induction l₁ generalizing t with
  | nil => simpa [sumDur_nil] using h₂
  | cons e l ih =>
    obtain ⟨he, hl⟩ := h₁
    exact ⟨he, ih hl (by simpa [sumDur_cons, add_assoc] using h₂)⟩

theorem symStep_spec (u : ℚ) (fq : ℚ × ℤ) (c : ℕ) (s : MorseSym) (t : ℚ) :
    ChainedFrom t (symStep u fq c s t).1 ∧
      (symStep u fq c s t).2 = t + sumDur (symStep u fq c s t).1 := by
  cases s <;> simp [symStep, ChainedFrom, sumDur]

theorem symEvents_spec (u : ℚ) (fq : ℚ × ℤ) (c : ℕ) :
    ∀ (code : List MorseSym) (t : ℚ),
      ChainedFrom t (symEvents u fq c code t).1 ∧
        (symEvents u fq c code t).2 = t + sumDur (symEvents u fq c code t).1
  | [], t => by simp [symEvents, ChainedFrom, sumDur]
  | [s], t => by simpa [symEvents] using symStep_spec u fq c s t
  | s :: r :: rs, t => by
    obtain ⟨h₁, h₂⟩ := symStep_spec u fq c s t
    obtain ⟨h₃, h₄⟩ := symEvents_spec u fq c (r :: rs) ((symStep u fq c s t).2 + u)
    constructor
    · refine chainedFrom_append h₁ ?_
      rw [← h₂]
      exact ⟨rfl, by simpa using h₃⟩
    · simp only [symEvents, sumDur_append, sumDur_cons]
      rw [h₄, h₂]
      ring

theorem unitEvents_spec (u : ℚ) (fq : ℚ × ℤ) (c : ℕ) (t : ℚ) :
    ChainedFrom t (unitEvents u fq c t).1 ∧
      (unitEvents u fq c t).2 = t + sumDur (unitEvents u fq c t).1 := by
  obtain ⟨h₁, h₂⟩ := symEvents_spec u fq c ((morseMap c).getD []) t
  constructor
  · refine chainedFrom_append h₁ ?_
    rw [← h₂]
    exact ⟨rfl, trivial⟩
  · simp only [unitEvents, sumDur_append, sumDur_cons, sumDur_nil]
    rw [h₂]
    ring

theorem unitsEvents_spec (textLen : ℕ) (th : ThemeConfig) (u : ℚ) :
    ∀ (ds : List ℕ) (t : ℚ) (k : ℕ),
      ChainedFrom t (unitsEvents textLen th u ds t k).1 ∧
        (unitsEvents textLen th u ds t k).2 =
          t + sumDur (unitsEvents textLen th u ds t k).1
  | [], t, k => by simp [unitsEvents, ChainedFrom, sumDur]
  | c :: rest, t, k => by
    by_cases hc : c = 32
    · obtain ⟨h₁, h₂⟩ := unitsEvents_spec textLen th u rest (t + 7 * u) k
      refine ⟨?_, ?_⟩
      · simp only [unitsEvents, if_pos hc]
        exact ⟨rfl, h₁⟩
      · simp only [unitsEvents, if_pos hc, sumDur_cons]
        rw [h₂]
        ring
    · obtain ⟨h₁, h₂⟩ := unitEvents_spec u (getFrequency textLen th c k) c t
      obtain ⟨h₃, h₄⟩ := unitsEvents_spec textLen th u rest
        (unitEvents u (getFrequency textLen th c k) c t).2 (k + 1)
      refine ⟨?_, ?_⟩
      · simp only [unitsEvents, if_neg hc]
        exact chainedFrom_append h₁ (by rw [← h₂]; exact h₃)
      · simp only [unitsEvents, if_neg hc, sumDur_append]
        rw [h₄, h₂]
        ring

theorem generateTimeline_chained (text : List ℕ) (th : ThemeConfig) :
    ChainedFrom 0 (generateTimeline text th) := by
  obtain ⟨h₁, h₂⟩ := unitsEvents_spec text.length th
    (DOT_TIME / th.tempoMultiplier) (textToMorseDecomposed text) 0 0
  exact chainedFrom_append h₁ ⟨h₂, trivial⟩

theorem chainedFrom_chain' {t : ℚ} {l : List PlaybackEvent}
    (h : ChainedFrom t l) :
    List.Chain' (fun a b => a.startTime + a.duration = b.startTime) l := by
  induction l generalizing t with
  | nil => trivial
  | cons e l ih =>
    obtain ⟨he, hl⟩ := h
    cases l with
    | nil => exact List.chain'_singleton e
    | cons e₂ l₂ =>
      exact (List.chain'_cons).mpr ⟨by rw [he, hl.1], ih hl⟩

theorem symStep_dur_pos {u : ℚ} (hu : 0 < u) (fq : ℚ × ℤ) (c : ℕ)
    (s : MorseSym) (t : ℚ) : ∀ e ∈ (symStep u fq c s t).1, 0 < e.duration := by
  intro e he
  cases s with
  | dot =>
    simp only [symStep, List.mem_singleton] at he
    subst he; simpa using hu
  | dash =>
    simp only [symStep, List.mem_singleton] at he
    subst he; simp only []; linarith
  | space => simp [symStep] at he
  | wordSpace => simp [symStep] at he

theorem symEvents_dur_pos {u : ℚ} (hu : 0 < u) (fq : ℚ × ℤ) (c : ℕ) :
    ∀ (code : List MorseSym) (t : ℚ),
      ∀ e ∈ (symEvents u fq c code t).1, 0 < e.duration
  | [], t => by simp [symEvents]
  | [s], t => by simpa [symEvents] using symStep_dur_pos hu fq c s t
  | s :: r :: rs, t => by
    intro e he
    simp only [symEvents, List.mem_append, List.mem_cons] at he
    rcases he with h | h | h
    · exact symStep_dur_pos hu fq c s t e h
    · subst h; simpa using hu
    · exact symEvents_dur_pos hu fq c (r :: rs) ((symStep u fq c s t).2 + u) e h

theorem unitEvents_dur_pos {u : ℚ} (hu : 0 < u) (fq : ℚ × ℤ) (c : ℕ) (t : ℚ) :
    ∀ e ∈ (unitEvents u fq c t).1, 0 < e.duration := by
  intro e he
  simp only [unitEvents, List.mem_append, List.mem_singleton] at he
  rcases he with h | h
  · exact symEvents_dur_pos hu fq c ((morseMap c).getD []) t e h
  · subst h; simp only []; linarith

theorem unitsEvents_dur_pos {u : ℚ} (hu : 0 < u) (textLen : ℕ)
    (th : ThemeConfig) :
    ∀ (ds : List ℕ) (t : ℚ) (k : ℕ),
      ∀ e ∈ (unitsEvents textLen th u ds t k).1, 0 < e.duration
  | [], t, k => by simp [unitsEvents]
  | c :: rest, t, k => by
    intro e he
    by_cases hc : c = 32
    · simp only [unitsEvents, if_pos hc, List.mem_cons] at he
      rcases he with h | h
      · subst h; simp only []; linarith
      · exact unitsEvents_dur_pos hu textLen th rest (t + 7 * u) k e h
    · simp only [unitsEvents, if_neg hc, List.mem_append] at he
      rcases he with h | h
      · exact unitEvents_dur_pos hu (getFrequency textLen th c k) c t e h
      · exact unitsEvents_dur_pos hu textLen th rest
          (unitEvents u (getFrequency textLen th c k) c t).2 (k + 1) e h

theorem generateTimeline_dur_pos {th : ThemeConfig}
    (h : 0 < th.tempoMultiplier) (text : List ℕ) :
    ∀ e ∈ generateTimeline text th, 0 < e.duration := by
  have hu : 0 < DOT_TIME / th.tempoMultiplier := by
    have : (0 : ℚ) < DOT_TIME := by norm_num [DOT_TIME]
    positivity
  intro e he
  simp only [generateTimeline, List.mem_append, List.mem_singleton] at he
  rcases he with h' | h'
  · exact unitsEvents_dur_pos hu text.length th (textToMorseDecomposed text)
      0 0 e h'
  · subst h'; norm_num

theorem chain'_le_of_packed {l : List PlaybackEvent}
    (h : List.Chain' (fun a b => a.startTime + a.duration = b.startTime) l)
    (hd : ∀ e ∈ l, 0 < e.duration) :
    List.Chain' (fun a b : PlaybackEvent => a.startTime ≤ b.startTime) l := by
  induction l with
  | nil => trivial
  | cons e l ih =>
    cases l with
    | nil => simp
    | cons e₂ l₂ =>
      rw [List.chain'_cons] at h ⊢
      refine ⟨?_, ih h.2 (fun x hx => hd x (List.mem_cons_of_mem _ hx))⟩
      have hde := hd e (List.mem_cons_self _ _)
      linarith [h.1]

/-! ## C1 — the timeline is sorted, gap-free and overlap-free -/

/-- **C1**: for every text and theme with positive `tempoMultiplier`, the
event list of `generateTimeline` is sorted in non-decreasing `startTime`
order; any two consecutive events satisfy
`a.startTime + a.duration = b.startTime` (no gaps, no overlaps); and the
total timeline duration — the last event's `startTime + duration`, exactly
as the engine computes it — equals the sum of all event durations. -/
theorem C1_timeline_packed (text : List ℕ) (th : ThemeConfig)
    (h : 0 < th.tempoMultiplier) :
    List.Pairwise (fun a b => a.startTime ≤ b.startTime)
        (generateTimeline text th)
      ∧ List.Chain' (fun a b => a.startTime + a.duration = b.startTime)
        (generateTimeline text th)
      ∧ ∃ lastEv, (generateTimeline text th).getLast? = some lastEv
          ∧ lastEv.startTime + lastEv.duration =
              sumDur (generateTimeline text th) := by
  have hchain := chainedFrom_chain' (generateTimeline_chained text th)
  have hdur := generateTimeline_dur_pos h text
  refine ⟨?_, hchain, ?_⟩
  · haveI : IsTrans PlaybackEvent (fun a b => a.startTime ≤ b.startTime) :=
      ⟨fun _ _ _ h1 h2 => le_trans h1 h2⟩
    exact List.chain'_iff_pairwise.mp (chain'_le_of_packed hchain hdur)
  · obtain ⟨h₁, h₂⟩ := unitsEvents_spec text.length th
      (DOT_TIME / th.tempoMultiplier) (textToMorseDecomposed text) 0 0
    refine ⟨_, List.getLast?_append_cons _ _ _, ?_⟩
    show (unitsEvents text.length th (DOT_TIME / th.tempoMultiplier)
        (textToMorseDecomposed text) 0 0).2 + 2 = _
    rw [h₂, generateTimeline, sumDur_append, sumDur_cons, sumDur_nil]
    ring

/-- Concrete instantiation of `C1_timeline_packed` at the text `"SOS"` and
the default theme. -/
theorem C1_timeline_packed_witness :
    (0 : ℚ) < DEFAULT_THEME.tempoMultiplier
      ∧ (List.Pairwise (fun a b => a.startTime ≤ b.startTime)
            (generateTimeline [83, 79, 83] DEFAULT_THEME)
          ∧ List.Chain' (fun a b => a.startTime + a.duration = b.startTime)
            (generateTimeline [83, 79, 83] DEFAULT_THEME)
          ∧ ∃ lastEv,
              (generateTimeline [83, 79, 83] DEFAULT_THEME).getLast? =
                  some lastEv
                ∧ lastEv.startTime + lastEv.duration =
                    sumDur (generateTimeline [83, 79, 83] DEFAULT_THEME)) :=
  ⟨by norm_num [DEFAULT_THEME],
   C1_timeline_packed [83, 79, 83] DEFAULT_THEME
     (by norm_num [DEFAULT_THEME])⟩

/-! ## C2 — the concrete `"SOS"` scenario -/

/-- Symbolic expansion of the `"SOS"` timeline over an arbitrary theme:
`'S' = ...`, `'O' = ---`, dots one unit, dashes four units, inter-element
silences one unit, inter-character silences three units, trailing padding
2 s, one frequency per character. -/
theorem generateTimeline_SOS (th : ThemeConfig) :
    generateTimeline [83, 79, 83] th =
      (let u := DOT_TIME / th.tempoMultiplier
       let fS1 : Option (ℚ × ℤ) := some (getFrequency 3 th 83 0)
       let fO : Option (ℚ × ℤ) := some (getFrequency 3 th 79 1)
       let fS2 : Option (ℚ × ℤ) := some (getFrequency 3 th 83 2)
       [⟨.note, 0, u, some .dot, fS1, some 83⟩,
        ⟨.silence, u, u, none, none, none⟩,
        ⟨.note, 2 * u, u, some .dot, fS1, some 83⟩,
        ⟨.silence, 3 * u, u, none, none, none⟩,
        ⟨.note, 4 * u, u, some .dot, fS1, some 83⟩,
        ⟨.silence, 5 * u, 3 * u, some .space, none, none⟩,
        ⟨.note, 8 * u, 4 * u, some .dash, fO, some 79⟩,
        ⟨.silence, 12 * u, u, none, none, none⟩,
        ⟨.note, 13 * u, 4 * u, some .dash, fO, some 79⟩,
        ⟨.silence, 17 * u, u, none, none, none⟩,
        ⟨.note, 18 * u, 4 * u, some .dash, fO, some 79⟩,
        ⟨.silence, 22 * u, 3 * u, some .space, none, none⟩,
        ⟨.note, 25 * u, u, some .dot, fS2, some 83⟩,
        ⟨.silence, 26 * u, u, none, none, none⟩,
        ⟨.note, 27 * u, u, some .dot, fS2, some 83⟩,
        ⟨.silence, 28 * u, u, none, none, none⟩,
        ⟨.note, 29 * u, u, some .dot, fS2, some 83⟩,
        ⟨.silence, 30 * u, 3 * u, some .space, none, none⟩,
        ⟨.silence, 33 * u, 2, none, none, none⟩]) := by
  have hd : textToMorseDecomposed [83, 79, 83] = [83, 79, 83] := by decide
  have hS : (morseMap 83).getD [] = [.dot, .dot, .dot] := rfl
  have hO : (morseMap 79).getD [] = [.dash, .dash, .dash] := rfl
  simp only [generateTimeline, hd]
  norm_num only [unitsEvents, unitEvents, symEvents, symStep, hS, hO]
  norm_num [PlaybackEvent.mk.injEq]
  ring_nf
  simp

/-- **C2**: `generateTimeline("SOS", DEFAULT_THEME)` (code units
`[83, 79, 83]`) contains exactly 9 note events, and the full event list is:
for each `'S'` three dot notes of duration `unitTime` separated by two
inter-element silences of `unitTime`; for `'O'` three dash notes of duration
`4 × unitTime` (within the claimed 3–4× band) separated by two inter-element
silences; one inter-character silence of `3 × unitTime` after each
character's code; and one trailing padding silence of `2.0 ≥ 2` seconds —
with `unitTime = DOT_TIME / 1.0 = 7/50` s. -/
theorem C2_sos_timeline :
    ((generateTimeline [83, 79, 83] DEFAULT_THEME).filter
        (fun e => e.type = .note)).length = 9
      ∧ (generateTimeline [83, 79, 83] DEFAULT_THEME =
          (let u : ℚ := 7 / 50
           let fS : Option (ℚ × ℤ) := some (440, 0)
           let fO : Option (ℚ × ℤ) := some (440, 4)
           [⟨.note, 0, u, some .dot, fS, some 83⟩,
            ⟨.silence, u, u, none, none, none⟩,
            ⟨.note, 2 * u, u, some .dot, fS, some 83⟩,
            ⟨.silence, 3 * u, u, none, none, none⟩,
            ⟨.note, 4 * u, u, some .dot, fS, some 83⟩,
            ⟨.silence, 5 * u, 3 * u, some .space, none, none⟩,
            ⟨.note, 8 * u, 4 * u, some .dash, fO, some 79⟩,
            ⟨.silence, 12 * u, u, none, none, none⟩,
            ⟨.note, 13 * u, 4 * u, some .dash, fO, some 79⟩,
            ⟨.silence, 17 * u, u, none, none, none⟩,
            ⟨.note, 18 * u, 4 * u, some .dash, fO, some 79⟩,
            ⟨.silence, 22 * u, 3 * u, some .space, none, none⟩,
            ⟨.note, 25 * u, u, some .dot, fS, some 83⟩,
            ⟨.silence, 26 * u, u, none, none, none⟩,
            ⟨.note, 27 * u, u, some .dot, fS, some 83⟩,
            ⟨.silence, 28 * u, u, none, none, none⟩,
            ⟨.note, 29 * u, u, some .dot, fS, some 83⟩,
            ⟨.silence, 30 * u, 3 * u, some .space, none, none⟩,
            ⟨.silence, 33 * u, 2, none, none, none⟩]))
      ∧ (∃ lastEv,
          (generateTimeline [83, 79, 83] DEFAULT_THEME).getLast? = some lastEv
            ∧ lastEv.type = .silence ∧ 2 ≤ lastEv.duration) := by
  have hu : DOT_TIME / DEFAULT_THEME.tempoMultiplier = 7 / 50 := by
    norm_num [DOT_TIME, DEFAULT_THEME]
  have hf0 : getFrequency 3 DEFAULT_THEME 83 0 = (440, 0) := by decide
  have hf1 : getFrequency 3 DEFAULT_THEME 79 1 = (440, 4) := by decide
  have hf2 : getFrequency 3 DEFAULT_THEME 83 2 = (440, 0) := by decide
  have hlist := generateTimeline_SOS DEFAULT_THEME
  simp only [hu, hf0, hf1, hf2] at hlist
  refine ⟨?_, hlist, ?_⟩
  · rw [hlist]
    rfl
  · rw [hlist]
    exact ⟨_, rfl, rfl, by norm_num⟩

/-! ## C3 — tempo doubling -/

theorem symStep_half (u : ℚ) (fq : ℚ × ℤ) (c : ℕ) (s : MorseSym) (t : ℚ) :
    symStep (u / 2) fq c s (t / 2) =
      ((symStep u fq c s t).1.map scaleHalf, (symStep u fq c s t).2 / 2) := by
  cases s with
  | dot =>
    refine congrArg (Prod.mk _) ?_
    show t / 2 + u / 2 = (t + u) / 2
    ring
  | dash =>
    simp only [symStep, scaleHalf, List.map_cons, List.map_nil,
      Prod.mk.injEq, PlaybackEvent.mk.injEq]
    norm_num
    constructor <;> ring
  | space => rfl
  | wordSpace => rfl

theorem symEvents_half (u : ℚ) (fq : ℚ × ℤ) (c : ℕ) :
    ∀ (code : List MorseSym) (t : ℚ),
      symEvents (u / 2) fq c code (t / 2) =
        ((symEvents u fq c code t).1.map scaleHalf,
         (symEvents u fq c code t).2 / 2)
  | [], t => by simp [symEvents]
  | [s], t => by simpa [symEvents] using symStep_half u fq c s t
  | s :: r :: rs, t => by
    have harg : (symStep u fq c s t).2 / 2 + u / 2 =
        ((symStep u fq c s t).2 + u) / 2 := by ring
    have h2 := symEvents_half u fq c (r :: rs) ((symStep u fq c s t).2 + u)
    simp only [symEvents, symStep_half, harg, h2, List.map_append,
      List.map_cons, Prod.mk.injEq, scaleHalf]

theorem unitEvents_half (u : ℚ) (fq : ℚ × ℤ) (c : ℕ) (t : ℚ) :
    unitEvents (u / 2) fq c (t / 2) =
      ((unitEvents u fq c t).1.map scaleHalf,
       (unitEvents u fq c t).2 / 2) := by
  simp only [unitEvents, symEvents_half, List.map_append, List.map_cons,
    List.map_nil, Prod.mk.injEq, scaleHalf, PlaybackEvent.mk.injEq]
  norm_num
  constructor <;> ring

theorem unitsEvents_half (textLen : ℕ) (th : ThemeConfig) (u : ℚ) :
    ∀ (ds : List ℕ) (t : ℚ) (k : ℕ),
      unitsEvents textLen th (u / 2) ds (t / 2) k =
        ((unitsEvents textLen th u ds t k).1.map scaleHalf,
         (unitsEvents textLen th u ds t k).2 / 2)
  | [], t, k => by simp [unitsEvents]
  | c :: rest, t, k => by
    by_cases hc : c = 32
    · have harg : t / 2 + 7 * (u / 2) = (t + 7 * u) / 2 := by ring
      have h2 := unitsEvents_half textLen th u rest (t + 7 * u) k
      simp only [unitsEvents, if_pos hc, harg, h2, List.map_cons,
        Prod.mk.injEq, scaleHalf, PlaybackEvent.mk.injEq]
      norm_num
      ring
    · have h1 := unitEvents_half u (getFrequency textLen th c k) c t
      have h2 := unitsEvents_half textLen th u rest
        (unitEvents u (getFrequency textLen th c k) c t).2 (k + 1)
      simp only [unitsEvents, if_neg hc, h1, h2, List.map_append,
        Prod.mk.injEq]
      try exact ⟨rfl, rfl⟩

theorem unitsEvents_theme_congr (th₁ th₂ : ThemeConfig)
    (hb : th₁.baseFrequency = th₂.baseFrequency)
    (hs : th₁.scale = th₂.scale) (textLen : ℕ) (u : ℚ) :
    ∀ (ds : List ℕ) (t : ℚ) (k : ℕ),
      unitsEvents textLen th₁ u ds t k = unitsEvents textLen th₂ u ds t k
  | [], _, _ => rfl
  | c :: rest, t, k => by
    by_cases hc : c = 32
    · simp only [unitsEvents, if_pos hc,
        unitsEvents_theme_congr th₁ th₂ hb hs textLen u rest (t + 7 * u) k]
    · have hf : getFrequency textLen th₁ c k = getFrequency textLen th₂ c k := by
        simp [getFrequency, freqSemis, hb, hs]
      simp only [unitsEvents, if_neg hc, hf,
        unitsEvents_theme_congr th₁ th₂ hb hs textLen u rest
          (unitEvents u (getFrequency textLen th₂ c k) c t).2 (k + 1)]

/-- **C3 (counterexample)**: doubling the tempo multiplier of the default
theme does *not* halve every event's duration — on the empty text the single
padding event keeps its fixed 2.0 s duration instead of becoming 1.0 s, so
the claim as stated is false. -/
theorem C3_tempo_doubling_cex :
    ¬ ((generateTimeline []
          { DEFAULT_THEME with
              tempoMultiplier := 2 * DEFAULT_THEME.tempoMultiplier }).map
          PlaybackEvent.duration
        = (generateTimeline [] DEFAULT_THEME).map
            (fun e => e.duration / 2)) := by
  intro h
  simp only [generateTimeline, textToMorseDecomposed, unitsEvents,
    List.map_cons, List.map_nil, List.nil_append, List.cons.injEq] at h
  norm_num at h

/-- **C3 (amended)**: for every text and theme with positive
`tempoMultiplier`, doubling `tempoMultiplier` halves every event's
`startTime` and every event's `duration` *except* the final padding
silence, whose duration stays fixed at 2.0 s (its `startTime` is still
halved). -/
theorem C3_tempo_doubling_amended (text : List ℕ) (th : ThemeConfig)
    (h : 0 < th.tempoMultiplier) :
    ∃ evs pad,
      generateTimeline text th = evs ++ [pad]
        ∧ generateTimeline text
            { th with tempoMultiplier := 2 * th.tempoMultiplier } =
              evs.map scaleHalf ++
                [{ pad with startTime := pad.startTime / 2 }]
        ∧ pad.duration = 2 := by
  have _ := h
  set th₂ : ThemeConfig :=
    { th with tempoMultiplier := 2 * th.tempoMultiplier } with hth₂
  have hu : DOT_TIME / th₂.tempoMultiplier =
      (DOT_TIME / th.tempoMultiplier) / 2 := by
    show DOT_TIME / (2 * th.tempoMultiplier) = _
    rw [div_div]
    ring_nf
  refine ⟨(unitsEvents text.length th (DOT_TIME / th.tempoMultiplier)
      (textToMorseDecomposed text) 0 0).1,
    ⟨.silence, (unitsEvents text.length th (DOT_TIME / th.tempoMultiplier)
      (textToMorseDecomposed text) 0 0).2, 2, none, none, none⟩,
    rfl, ?_, rfl⟩
  have hcongr := unitsEvents_theme_congr th₂ th rfl rfl
    text.length (DOT_TIME / th₂.tempoMultiplier)
  have hhalf := unitsEvents_half text.length th
    (DOT_TIME / th.tempoMultiplier) (textToMorseDecomposed text) 0 0
  rw [show (0 : ℚ) / 2 = 0 by norm_num] at hhalf
  show (unitsEvents text.length th₂ (DOT_TIME / th₂.tempoMultiplier)
      (textToMorseDecomposed text) 0 0).1 ++ _ = _
  rw [hcongr, hu, hhalf]

/-- Concrete instantiation of `C3_tempo_doubling_amended` at the text `"A"`
and the default theme. -/
theorem C3_tempo_doubling_amended_witness :
    (0 : ℚ) < DEFAULT_THEME.tempoMultiplier
      ∧ ∃ evs pad,
          generateTimeline [65] DEFAULT_THEME = evs ++ [pad]
            ∧ generateTimeline [65]
                { DEFAULT_THEME with
                    tempoMultiplier := 2 * DEFAULT_THEME.tempoMultiplier } =
                  evs.map scaleHalf ++
                    [{ pad with startTime := pad.startTime / 2 }]
            ∧ pad.duration = 2 :=
  ⟨by norm_num [DEFAULT_THEME],
   C3_tempo_doubling_amended [65] DEFAULT_THEME (by norm_num [DEFAULT_THEME])⟩

/-! ## C4 — determinism / purity of `generateTimeline` -/

/-- **C4**: `generateTimeline` is deterministic and carries no state across
calls: its output does not depend on the engine's stored event list (the
only mutable instance state the method touches), and a second call with
identical arguments — made in the state left behind by the first — returns
the identical event list, field for field (`type`, `startTime`, `duration`,
`symbol`, `frequency`, `char`).  The pitch rule enters only through
`getFrequency textLen th charCode k`, a pure function of character
identity, unit position, and text length — no clock, random generator, or
cross-call state. -/
theorem C4_generateTimeline_deterministic (s₁ s₂ : EngineState)
    (text : List ℕ) (th : ThemeConfig) :
    (engineGenerateTimeline s₁ text th).1 =
        (engineGenerateTimeline s₂ text th).1
      ∧ (engineGenerateTimeline
            (engineGenerateTimeline s₁ text th).2 text th).1 =
          (engineGenerateTimeline s₁ text th).1
      ∧ (engineGenerateTimeline s₁ text th).2 =
          ⟨generateTimeline text th⟩ :=
  ⟨rfl, rfl, rfl⟩

/-! ## C6 — the `"A B"` word-spacing scenario -/

/-- **C6**: for every theme, `generateTimeline("A B", theme)` (code units
`[65, 32, 66]`) is, in order: A's Morse note/silence events (dot, gap,
dash) closed by A's single inter-character silence of `3 × unitTime`, then
exactly one WORD-SPACE silence event of duration `7 × unitTime`, then B's
Morse note/silence events closed by B's inter-character silence, then the
trailing padding — no inter-character silence is duplicated around the
word space, which is the only word-space event in the list. -/
theorem C6_word_space_timeline (th : ThemeConfig) :
    (generateTimeline [65, 32, 66] th =
        (let u := DOT_TIME / th.tempoMultiplier
         let fA : Option (ℚ × ℤ) := some (getFrequency 3 th 65 0)
         let fB : Option (ℚ × ℤ) := some (getFrequency 3 th 66 1)
         [⟨.note, 0, u, some .dot, fA, some 65⟩,
          ⟨.silence, u, u, none, none, none⟩,
          ⟨.note, 2 * u, 4 * u, some .dash, fA, some 65⟩,
          ⟨.silence, 6 * u, 3 * u, some .space, none, none⟩,
          ⟨.silence, 9 * u, 7 * u, some .wordSpace, none, none⟩,
          ⟨.note, 16 * u, 4 * u, some .dash, fB, some 66⟩,
          ⟨.silence, 20 * u, u, none, none, none⟩,
          ⟨.note, 21 * u, u, some .dot, fB, some 66⟩,
          ⟨.silence, 22 * u, u, none, none, none⟩,
          ⟨.note, 23 * u, u, some .dot, fB, some 66⟩,
          ⟨.silence, 24 * u, u, none, none, none⟩,
          ⟨.note, 25 * u, u, some .dot, fB, some 66⟩,
          ⟨.silence, 26 * u, 3 * u, some .space, none, none⟩,
          ⟨.silence, 29 * u, 2, none, none, none⟩]))
      ∧ ((generateTimeline [65, 32, 66] th).filter
          (fun e => e.symbol = some .wordSpace)).length = 1 := by
  have hd : textToMorseDecomposed [65, 32, 66] = [65, 32, 66] := by decide
  have hA : (morseMap 65).getD [] = [.dot, .dash] := rfl
  have hB : (morseMap 66).getD [] = [.dash, .dot, .dot, .dot] := rfl
  have hlist : generateTimeline [65, 32, 66] th =
      (let u := DOT_TIME / th.tempoMultiplier
       let fA : Option (ℚ × ℤ) := some (getFrequency 3 th 65 0)
       let fB : Option (ℚ × ℤ) := some (getFrequency 3 th 66 1)
       [⟨.note, 0, u, some .dot, fA, some 65⟩,
        ⟨.silence, u, u, none, none, none⟩,
        ⟨.note, 2 * u, 4 * u, some .dash, fA, some 65⟩,
        ⟨.silence, 6 * u, 3 * u, some .space, none, none⟩,
        ⟨.silence, 9 * u, 7 * u, some .wordSpace, none, none⟩,
        ⟨.note, 16 * u, 4 * u, some .dash, fB, some 66⟩,
        ⟨.silence, 20 * u, u, none, none, none⟩,
        ⟨.note, 21 * u, u, some .dot, fB, some 66⟩,
        ⟨.silence, 22 * u, u, none, none, none⟩,
        ⟨.note, 23 * u, u, some .dot, fB, some 66⟩,
        ⟨.silence, 24 * u, u, none, none, none⟩,
        ⟨.note, 25 * u, u, some .dot, fB, some 66⟩,
        ⟨.silence, 26 * u, 3 * u, some .space, none, none⟩,
        ⟨.silence, 29 * u, 2, none, none, none⟩]) := by
    simp only [generateTimeline, hd]
    norm_num only [unitsEvents, unitEvents, symEvents, symStep, hA, hB]
    norm_num [PlaybackEvent.mk.injEq]
    ring_nf
    simp
  refine ⟨hlist, ?_⟩
  rw [hlist]
  rfl

/-! ## C7 — unmapped characters -/

theorem symStep_eraseFreq (u : ℚ) (fq₁ fq₂ : ℚ × ℤ) (c : ℕ) (s : MorseSym)
    (t : ℚ) :
    (symStep u fq₁ c s t).1.map eraseFreq =
        (symStep u fq₂ c s t).1.map eraseFreq
      ∧ (symStep u fq₁ c s t).2 = (symStep u fq₂ c s t).2 := by
  cases s <;> simp [symStep, eraseFreq]

theorem symEvents_eraseFreq (u : ℚ) (fq₁ fq₂ : ℚ × ℤ) (c : ℕ) :
    ∀ (code : List MorseSym) (t : ℚ),
      (symEvents u fq₁ c code t).1.map eraseFreq =
          (symEvents u fq₂ c code t).1.map eraseFreq
        ∧ (symEvents u fq₁ c code t).2 = (symEvents u fq₂ c code t).2
  | [], t => by simp [symEvents]
  | [s], t => by simpa [symEvents] using symStep_eraseFreq u fq₁ fq₂ c s t
  | s :: r :: rs, t => by
    obtain ⟨h₁, h₂⟩ := symStep_eraseFreq u fq₁ fq₂ c s t
    obtain ⟨h₃, h₄⟩ := symEvents_eraseFreq u fq₁ fq₂ c (r :: rs)
      ((symStep u fq₂ c s t).2 + u)
    simp only [symEvents, List.map_append, List.map_cons, h₁, h₂, h₃, h₄,
      and_self]

theorem unitEvents_eraseFreq (u : ℚ) (fq₁ fq₂ : ℚ × ℤ) (c : ℕ) (t : ℚ) :
    (unitEvents u fq₁ c t).1.map eraseFreq =
        (unitEvents u fq₂ c t).1.map eraseFreq
      ∧ (unitEvents u fq₁ c t).2 = (unitEvents u fq₂ c t).2 := by
  obtain ⟨h₁, h₂⟩ := symEvents_eraseFreq u fq₁ fq₂ c ((morseMap c).getD []) t
  simp only [unitEvents, List.map_append, List.map_cons, List.map_nil, h₁,
    h₂, and_self]

theorem unitsEvents_eraseFreq (textLen₁ textLen₂ : ℕ) (th : ThemeConfig)
    (u : ℚ) :
    ∀ (ds : List ℕ) (t : ℚ) (k : ℕ),
      (unitsEvents textLen₁ th u ds t k).1.map eraseFreq =
          (unitsEvents textLen₂ th u ds t k).1.map eraseFreq
        ∧ (unitsEvents textLen₁ th u ds t k).2 =
            (unitsEvents textLen₂ th u ds t k).2
  | [], t, k => by simp [unitsEvents]
  | c :: rest, t, k => by
    by_cases hc : c = 32
    · obtain ⟨h₁, h₂⟩ := unitsEvents_eraseFreq textLen₁ textLen₂ th u rest
        (t + 7 * u) k
      simp only [unitsEvents, if_pos hc, List.map_cons, h₁, h₂, and_self]
    · obtain ⟨h₁, h₂⟩ := unitEvents_eraseFreq u
        (getFrequency textLen₁ th c k) (getFrequency textLen₂ th c k) c t
      obtain ⟨h₃, h₄⟩ := unitsEvents_eraseFreq textLen₁ textLen₂ th u rest
        (unitEvents u (getFrequency textLen₂ th c k) c t).2 (k + 1)
      simp only [unitsEvents, if_neg hc, List.map_append, h₁, h₂, h₃, h₄,
        and_self]

theorem decomposedOfUpper_append (l₁ l₂ : List ℕ) :
    decomposedOfUpper (l₁ ++ l₂) =
      decomposedOfUpper l₁ ++ decomposedOfUpper l₂ := by
  induction l₁ with
  | nil => rfl
  | cons ch l₁ ih =>
    simp only [List.cons_append, decomposedOfUpper, List.append_eq, ih]
    by_cases h1 : ch = 32
    · simp [h1]
    · rw [if_neg h1, if_neg h1]
      by_cases h2 : 0xAC00 ≤ ch ∧ ch ≤ 0xD7A3
      · simp [h2]
      · rw [if_neg h2, if_neg h2]
        by_cases h3 : (morseMap ch).isSome
        · simp [h3]
        · rw [if_neg h3, if_neg h3]

theorem decomposedOfUpper_skipped {units : List ℕ}
    (h : ∀ u ∈ units,
      u ≠ 32 ∧ ¬(0xAC00 ≤ u ∧ u ≤ 0xD7A3) ∧ morseMap u = none) :
    decomposedOfUpper units = [] := by
  induction units with
  | nil => rfl
  | cons u units ih =>
    obtain ⟨h1, h2, h3⟩ := h u (List.mem_cons_self _ _)
    simp only [decomposedOfUpper]
    rw [if_neg h1, if_neg h2, if_neg (by simp [h3])]
    exact ih fun x hx => h x (List.mem_cons_of_mem _ hx)

theorem textToMorseDecomposed_append_skip (before : List ℕ) {c : ℕ}
    (hc : UnmappedSkipped c) (after : List ℕ) :
    textToMorseDecomposed (before ++ c :: after) =
      textToMorseDecomposed (before ++ after) := by
  show decomposedOfUpper ((before ++ c :: after).flatMap toUpperCU) =
    decomposedOfUpper ((before ++ after).flatMap toUpperCU)
  rw [List.flatMap_append, List.flatMap_cons, List.flatMap_append,
    decomposedOfUpper_append, decomposedOfUpper_append,
    decomposedOfUpper_append, decomposedOfUpper_skipped hc,
    List.nil_append]

/-- **C7 (counterexample)**: the claim fails on the code.  `'#'` (code 35)
is unmapped and silently skipped, yet `generateTimeline("A#", DEFAULT_THEME)`
differs from `generateTimeline("A", DEFAULT_THEME)`: the pitch hash reads
`text.length`, so the note frequencies of `'A'` change — `(440, 28)`
(octave-shifted) with the `'#'` present versus `(440, 0)` without it. -/
theorem C7_unmapped_removal_cex :
    UnmappedSkipped 35
      ∧ (generateTimeline [65, 35] DEFAULT_THEME).map PlaybackEvent.frequency
          ≠ (generateTimeline [65] DEFAULT_THEME).map
              PlaybackEvent.frequency :=
  ⟨by decide, by decide⟩

/-- **C7 (amended)**: for every text split `before ++ [c] ++ after` where
`c` is an unmapped, silently skipped character (not a space, not a Hangul
syllable, no `MORSE_MAP` entry), `generateTimeline` yields the same event
list as on `before ++ after` *up to note frequencies*: the unmapped
character contributes no unit and no event and raises no error (the
embedding is total), but the note frequencies may differ because the pitch
hash consumes the original `text.length`, which counts the removed
character. -/
theorem C7_unmapped_removal_amended (before after : List ℕ) (c : ℕ)
    (th : ThemeConfig) (hc : UnmappedSkipped c) :
    (generateTimeline (before ++ c :: after) th).map eraseFreq =
      (generateTimeline (before ++ after) th).map eraseFreq := by
  obtain ⟨h₁, h₂⟩ := unitsEvents_eraseFreq (before ++ c :: after).length
    (before ++ after).length th (DOT_TIME / th.tempoMultiplier)
    (textToMorseDecomposed (before ++ after)) 0 0
  simp only [generateTimeline, textToMorseDecomposed_append_skip before hc
    after, List.map_append, h₁, h₂, List.map_cons, List.map_nil, eraseFreq]

/-- Concrete instantiation of `C7_unmapped_removal_amended` at
`before = "A"`, `c = '#'`, `after = ""`, default theme. -/
theorem C7_unmapped_removal_amended_witness :
    UnmappedSkipped 35
      ∧ (generateTimeline ([65] ++ 35 :: []) DEFAULT_THEME).map eraseFreq =
          (generateTimeline ([65] ++ []) DEFAULT_THEME).map eraseFreq :=
  ⟨by decide,
   C7_unmapped_removal_amended [65] [] 35 DEFAULT_THEME (by decide)⟩

/-! ## C8 — empty and whitespace-only text -/

theorem textToMorseDecomposed_spaces :
    ∀ {text : List ℕ}, (∀ c ∈ text, c = 32) →
      textToMorseDecomposed text = text
  | [], _ => rfl
  | c :: rest, h => by
    have hc : c = 32 := h c (List.mem_cons_self _ _)
    subst hc
    have hrest : decomposedOfUpper (toUpperStr rest) = rest :=
      textToMorseDecomposed_spaces
        (fun x hx => h x (List.mem_cons_of_mem _ hx))
    show decomposedOfUpper (toUpperStr (32 :: rest)) = 32 :: rest
    have hup : toUpperStr (32 :: rest) = 32 :: toUpperStr rest := rfl
    rw [hup]
    show 32 :: decomposedOfUpper (toUpperStr rest) = 32 :: rest
    rw [hrest]

theorem unitsEvents_all_spaces (textLen : ℕ) (th : ThemeConfig) (u : ℚ) :
    ∀ (ds : List ℕ), (∀ c ∈ ds, c = 32) → ∀ (t : ℚ) (k : ℕ),
      (unitsEvents textLen th u ds t k).1.map
          (fun e => (e.type, e.duration, e.symbol)) =
        List.replicate ds.length
          (EventType.silence, 7 * u, some MorseSym.wordSpace)
  | [], _, t, k => by simp [unitsEvents]
  | c :: rest, h, t, k => by
    have hc : c = 32 := h c (List.mem_cons_self _ _)
    subst hc
    have hrest := unitsEvents_all_spaces textLen th u rest
      (fun x hx => h x (List.mem_cons_of_mem _ hx)) (t + 7 * u) k
    simp only [unitsEvents, reduceIte, List.map_cons, List.length_cons,
      List.replicate_succ]
    rw [hrest]

/-- **C8 (counterexample)**: the claim fails on the code for
whitespace-only text.  `generateTimeline(" ", DEFAULT_THEME)` is not the
padding-only singleton: a space character is kept as a word-space unit and
emits a 7-unit word-space silence before the padding, so the list has two
events and the total duration exceeds the padding constant. -/
theorem C8_whitespace_timeline_cex :
    (generateTimeline [32] DEFAULT_THEME).length = 2
      ∧ generateTimeline [32] DEFAULT_THEME ≠
          [⟨.silence, 0, 2, none, none, none⟩] := by
  refine ⟨by decide, fun h => ?_⟩
  exact absurd (congrArg List.length h) (by decide)

/-- **C8 (amended)**: for empty text, `generateTimeline` returns exactly
the trailing padding silence (duration 2.0 at time 0).  For
whitespace-only text (spaces), it returns one word-space silence of
`7 × unitTime` per space followed by the padding — only silences, no
notes; the total duration is `7 × unitTime × (number of spaces) + 2`, not
just the padding constant. -/
theorem C8_whitespace_timeline_amended (text : List ℕ) (th : ThemeConfig)
    (h : ∀ c ∈ text, c = 32) :
    (generateTimeline text th).map (fun e => (e.type, e.duration, e.symbol))
        = List.replicate text.length
            (EventType.silence, 7 * (DOT_TIME / th.tempoMultiplier),
              some MorseSym.wordSpace)
          ++ [(EventType.silence, 2, none)]
      ∧ generateTimeline [] th = [⟨.silence, 0, 2, none, none, none⟩] := by
  constructor
  · simp only [generateTimeline, textToMorseDecomposed_spaces h,
      List.map_append, List.map_cons, List.map_nil,
      unitsEvents_all_spaces text.length th
        (DOT_TIME / th.tempoMultiplier) text h 0 0]
  · rfl

/-- Concrete instantiation of `C8_whitespace_timeline_amended` at the
two-space text and the default theme. -/
theorem C8_whitespace_timeline_amended_witness :
    (∀ c ∈ [32, 32], c = 32)
      ∧ ((generateTimeline [32, 32] DEFAULT_THEME).map
            (fun e => (e.type, e.duration, e.symbol))
          = List.replicate ([32, 32] : List ℕ).length
              (EventType.silence,
                7 * (DOT_TIME / DEFAULT_THEME.tempoMultiplier),
                some MorseSym.wordSpace)
            ++ [(EventType.silence, 2, none)]
        ∧ generateTimeline [] DEFAULT_THEME =
            [⟨.silence, 0, 2, none, none, none⟩]) :=
  ⟨by decide,
   C8_whitespace_timeline_amended [32, 32] DEFAULT_THEME (by decide)⟩

/-! ## C9 — the theme-assembly boundary is safe -/

theorem scalePresets_ne_nil {s : String} {l : List ℤ}
    (h : scalePresets s = some l) : l ≠ [] := by
  unfold scalePresets at h
  split at h <;> first | (cases h; decide) | cases h

theorem symStep_note_fields (u : ℚ) (fq : ℚ × ℤ) (c : ℕ) (s : MorseSym)
    (t : ℚ) :
    ∀ e ∈ (symStep u fq c s t).1, e.type = .note →
      e.frequency = some fq ∧ e.char = some c := by
  intro e he _
  cases s <;> simp only [symStep, List.mem_singleton] at he <;>
    first
      | (subst he; exact ⟨rfl, rfl⟩)
      | cases he

theorem symEvents_note_fields (u : ℚ) (fq : ℚ × ℤ) (c : ℕ) :
    ∀ (code : List MorseSym) (t : ℚ),
      ∀ e ∈ (symEvents u fq c code t).1, e.type = .note →
        e.frequency = some fq ∧ e.char = some c
  | [], t => by simp [symEvents]
  | [s], t => by simpa [symEvents] using symStep_note_fields u fq c s t
  | s :: r :: rs, t => by
    intro e he ht
    simp only [symEvents, List.mem_append, List.mem_cons] at he
    rcases he with h | h | h
    · exact symStep_note_fields u fq c s t e h ht
    · subst h; cases ht
    · exact symEvents_note_fields u fq c (r :: rs)
        ((symStep u fq c s t).2 + u) e h ht

theorem unitEvents_note_fields (u : ℚ) (fq : ℚ × ℤ) (c : ℕ) (t : ℚ) :
    ∀ e ∈ (unitEvents u fq c t).1, e.type = .note →
      e.frequency = some fq ∧ e.char = some c := by
  intro e he ht
  simp only [unitEvents, List.mem_append, List.mem_singleton] at he
  rcases he with h | h
  · exact symEvents_note_fields u fq c ((morseMap c).getD []) t e h ht
  · subst h; cases ht

theorem unitsEvents_note_fields (textLen : ℕ) (th : ThemeConfig) (u : ℚ) :
    ∀ (ds : List ℕ) (t : ℚ) (k : ℕ),
      ∀ e ∈ (unitsEvents textLen th u ds t k).1, e.type = .note →
        ∃ c j, e.char = some c
          ∧ e.frequency = some (getFrequency textLen th c j)
  | [], t, k => by simp [unitsEvents]
  | c :: rest, t, k => by
    intro e he ht
    by_cases hc : c = 32
    · simp only [unitsEvents, if_pos hc, List.mem_cons] at he
      rcases he with h | h
      · subst h; cases ht
      · exact unitsEvents_note_fields textLen th u rest (t + 7 * u) k e h ht
    · simp only [unitsEvents, if_neg hc, List.mem_append] at he
      rcases he with h | h
      · obtain ⟨hf, hch⟩ := unitEvents_note_fields u
          (getFrequency textLen th c k) c t e h ht
        exact ⟨c, k, hch, hf⟩
      · exact unitsEvents_note_fields textLen th u rest
          (unitEvents u (getFrequency textLen th c k) c t).2 (k + 1) e h ht

/-- **C9**: whatever the user's manual selections — including degenerate
ones (non-positive or missing tempo, non-positive or missing base
frequency, an unknown scale name) — `buildManualTheme` substitutes the
reference defaults at the assembly boundary, so the resulting theme always
has a non-empty scale, a positive `tempoMultiplier` and a positive
`baseFrequency`, and `generateTimeline` on such a theme never emits a
zero- or negative-duration event; every note's frequency representation is
defined, with the theme's positive base frequency. -/
theorem C9_manual_theme_safe (sel : ManualSelections) (text : List ℕ) :
    (buildManualTheme sel).scale ≠ []
      ∧ 0 < (buildManualTheme sel).tempoMultiplier
      ∧ 0 < (buildManualTheme sel).baseFrequency
      ∧ (∀ e ∈ generateTimeline text (buildManualTheme sel), 0 < e.duration)
      ∧ (∀ e ∈ generateTimeline text (buildManualTheme sel),
          e.type = .note → ∃ semis, e.frequency =
            some ((buildManualTheme sel).baseFrequency, semis)) := by
  have htempo : 0 < (buildManualTheme sel).tempoMultiplier := by
    simp only [buildManualTheme]
    rcases htm : sel.selectedTempo with _ | tm <;> simp only [htm]
    · norm_num [DEFAULT_THEME]
    · by_cases h : (1 : ℚ) / 5 < tm
      · rw [if_pos h]; linarith
      · rw [if_neg h]; norm_num [DEFAULT_THEME]
  refine ⟨?_, htempo, ?_, generateTimeline_dur_pos htempo text, ?_⟩
  · simp only [buildManualTheme]
    by_cases h : sel.selectedScale = ""
    · rw [if_pos h]; simp [DEFAULT_THEME]
    · rw [if_neg h]
      rcases hsp : scalePresets sel.selectedScale with _ | l
      · simp [DEFAULT_THEME]
      · simpa using scalePresets_ne_nil hsp
  · simp only [buildManualTheme]
    rcases hbf : sel.selectedBaseFreq with _ | f <;> simp only [hbf]
    · norm_num [DEFAULT_THEME]
    · by_cases h : (50 : ℚ) < f
      · rw [if_pos h]; linarith
      · rw [if_neg h]; norm_num [DEFAULT_THEME]
  · intro e he ht
    simp only [generateTimeline, List.mem_append, List.mem_singleton] at he
    rcases he with h | h
    · obtain ⟨c, j, _, hf⟩ := unitsEvents_note_fields text.length
        (buildManualTheme sel) (DOT_TIME / (buildManualTheme sel).tempoMultiplier)
        (textToMorseDecomposed text) 0 0 e h ht
      exact ⟨_, hf⟩
    · subst h; cases ht

/-! ## C10 — one frequency per decomposed unit -/

theorem nonSpaceCount_nil : nonSpaceCount [] = 0 := rfl

theorem nonSpaceCount_cons_space (l : List ℕ) :
    nonSpaceCount (32 :: l) = nonSpaceCount l := by
  simp [nonSpaceCount]

theorem nonSpaceCount_cons {c : ℕ} (hc : c ≠ 32) (l : List ℕ) :
    nonSpaceCount (c :: l) = nonSpaceCount l + 1 := by
  simp [nonSpaceCount, List.filter_cons, hc]

theorem unitsEvents_unit_blocks (textLen : ℕ) (th : ThemeConfig) (u : ℚ) :
    ∀ (ds : List ℕ) (t : ℚ) (k : ℕ),
      ∃ blocks : List (List PlaybackEvent),
        (unitsEvents textLen th u ds t k).1 = blocks.flatten
          ∧ blocks.length = ds.length
          ∧ ∀ i < blocks.length, ∀ e ∈ blocks.getD i [], e.type = .note →
              e.char = some (ds.getD i 0)
                ∧ e.frequency = some (getFrequency textLen th (ds.getD i 0)
                    (k + nonSpaceCount (ds.take i)))
  | [], t, k => ⟨[], by simp [unitsEvents], rfl, by intro i hi; simp at hi⟩
  | c :: rest, t, k => by
    by_cases hc : c = 32
    · subst hc
      obtain ⟨blocks, hb, hlen, hp⟩ := unitsEvents_unit_blocks textLen th u
        rest (t + 7 * u) k
      refine ⟨[⟨.silence, t, 7 * u, some .wordSpace, none, none⟩] :: blocks,
        ?_, ?_, ?_⟩
      · simp [unitsEvents, hb]
      · simp [hlen]
      · intro i hi e he ht
        match i with
        | 0 =>
          simp only [List.getD_cons_zero, List.mem_singleton] at he
          subst he; cases ht
        | j + 1 =>
          simp only [List.getD_cons_succ] at he ⊢
          have hj : j < blocks.length := by
            simp only [List.length_cons] at hi; omega
          have := hp j hj e he ht
          simpa [List.take_succ_cons, nonSpaceCount_cons_space] using this
    · obtain ⟨blocks, hb, hlen, hp⟩ := unitsEvents_unit_blocks textLen th u
        rest (unitEvents u (getFrequency textLen th c k) c t).2 (k + 1)
      refine ⟨(unitEvents u (getFrequency textLen th c k) c t).1 :: blocks,
        ?_, ?_, ?_⟩
      · simp [unitsEvents, if_neg hc, hb]
      · simp [hlen]
      · intro i hi e he ht
        match i with
        | 0 =>
          simp only [List.getD_cons_zero] at he ⊢
          obtain ⟨hf, hch⟩ := unitEvents_note_fields u
            (getFrequency textLen th c k) c t e he ht
          refine ⟨hch, ?_⟩
          simpa [nonSpaceCount_nil] using hf
        | j + 1 =>
          simp only [List.getD_cons_succ] at he ⊢
          have hj : j < blocks.length := by
            simp only [List.length_cons] at hi; omega
          have hcount : k + nonSpaceCount ((c :: rest).take (j + 1)) =
              k + 1 + nonSpaceCount (rest.take j) := by
            rw [List.take_succ_cons, nonSpaceCount_cons hc]; omega
          rw [List.take_succ_cons, nonSpaceCount_cons hc,
            show k + (nonSpaceCount (rest.take j) + 1) =
              k + 1 + nonSpaceCount (rest.take j) by omega]
          exact hp j hj e he ht

/-- **C10**: the timeline is the ordered concatenation of one event block
per decomposed unit, followed by the trailing padding silence; every note
event of the `i`-th block carries the `i`-th unit's character and the
single frequency `getFrequency(text.length, theme, unit, k)` computed for
that unit (with `k` the number of non-space units before it).  The
frequency is thus fixed once per unit before its dot/dash symbols are
emitted: all notes within one unit's Morse code share it, and pitch can
vary only between units. -/
theorem C10_per_unit_frequency (text : List ℕ) (th : ThemeConfig) :
    ∃ (blocks : List (List PlaybackEvent)) (pad : PlaybackEvent),
      generateTimeline text th = blocks.flatten ++ [pad]
        ∧ pad.type = .silence
        ∧ blocks.length = (textToMorseDecomposed text).length
        ∧ ∀ i < blocks.length, ∀ e ∈ blocks.getD i [], e.type = .note →
            e.char = some ((textToMorseDecomposed text).getD i 0)
              ∧ e.frequency = some (getFrequency text.length th
                  ((textToMorseDecomposed text).getD i 0)
                  (nonSpaceCount ((textToMorseDecomposed text).take i))) := by
  obtain ⟨blocks, hb, hlen, hp⟩ := unitsEvents_unit_blocks text.length th
    (DOT_TIME / th.tempoMultiplier) (textToMorseDecomposed text) 0 0
  refine ⟨blocks, _, by rw [generateTimeline, hb], rfl, hlen, ?_⟩
  intro i hi e he ht
  have := hp i hi e he ht
  simpa using this

/-! ## C5 — Hangul syllable decomposition -/

theorem jamoDecompOk_mapped {base : ℕ} {l : List ℕ}
    (h : jamoDecompOk base l = true) : ∀ j ∈ l, (morseMap j).isSome := by
  simp only [jamoDecompOk, Bool.and_eq_true, List.all_eq_true] at h
  exact fun j hj => h.1.2 j hj

theorem initialPart_ok : ∀ i < 19,
    jamoDecompOk (initials.getD i 0)
      (decomposeInitialPart (initials.getD i 0)) = true := by decide

theorem medialPart_ok : ∀ m < 21,
    jamoDecompOk (medials.getD m 0)
      (decomposeMedialPart (medials.getD m 0)) = true := by decide

theorem finalPart_ok : ∀ f < 28, f ≠ 0 →
    jamoDecompOk (finals.getD f 0)
      (decomposeFinalPart (finals.getD f 0)) = true := by decide

/-- **C5**: for every code point in the Hangul syllable block
U+AC00–U+D7A3, `decomposeHangul` splits the block offset by the arithmetic
`initial = offset div 588`, `medial = (offset mod 588) div 28`,
`final = offset mod 28`; the result is the initial consonant part, then the
medial vowel part, then the final consonant part exactly when
`final ≠ 0`; each part passes `jamoDecompOk` — a compound jamo expands to
exactly two primitive jamo, a primitive jamo stays itself — and every jamo
of the result has a direct `MORSE_MAP` entry. -/
theorem C5_hangul_decomposition (c : ℕ) (h₁ : 0xAC00 ≤ c)
    (h₂ : c ≤ 0xD7A3) :
    decomposeHangul c =
        decomposeInitialPart (initials.getD ((c - 0xAC00) / 588) 0) ++
          decomposeMedialPart (medials.getD (((c - 0xAC00) % 588) / 28) 0) ++
          (if (c - 0xAC00) % 28 ≠ 0 then
            decomposeFinalPart (finals.getD ((c - 0xAC00) % 28) 0)
          else [])
      ∧ jamoDecompOk (initials.getD ((c - 0xAC00) / 588) 0)
          (decomposeInitialPart (initials.getD ((c - 0xAC00) / 588) 0))
          = true
      ∧ jamoDecompOk (medials.getD (((c - 0xAC00) % 588) / 28) 0)
          (decomposeMedialPart (medials.getD (((c - 0xAC00) % 588) / 28) 0))
          = true
      ∧ ((c - 0xAC00) % 28 ≠ 0 →
          jamoDecompOk (finals.getD ((c - 0xAC00) % 28) 0)
            (decomposeFinalPart (finals.getD ((c - 0xAC00) % 28) 0)) = true)
      ∧ ∀ j ∈ decomposeHangul c, (morseMap j).isSome := by
  have hin : (c - 0xAC00) / 588 < 19 := by omega
  have hmed : ((c - 0xAC00) % 588) / 28 < 21 := by omega
  have hfin : (c - 0xAC00) % 28 < 28 := by omega
  have heq : decomposeHangul c =
      decomposeInitialPart (initials.getD ((c - 0xAC00) / 588) 0) ++
        decomposeMedialPart (medials.getD (((c - 0xAC00) % 588) / 28) 0) ++
        (if (c - 0xAC00) % 28 ≠ 0 then
          decomposeFinalPart (finals.getD ((c - 0xAC00) % 28) 0)
        else []) := by
    simp only [decomposeHangul]
    rw [if_neg (by omega)]
  refine ⟨heq, initialPart_ok _ hin, medialPart_ok _ hmed,
    fun hne => finalPart_ok _ hfin hne, ?_⟩
  intro j hj
  rw [heq] at hj
  simp only [List.append_assoc, List.mem_append] at hj
  rcases hj with hj | hj | hj
  · exact jamoDecompOk_mapped (initialPart_ok _ hin) j hj
  · exact jamoDecompOk_mapped (medialPart_ok _ hmed) j hj
  · by_cases hf : (c - 0xAC00) % 28 ≠ 0
    · rw [if_pos hf] at hj
      exact jamoDecompOk_mapped (finalPart_ok _ hfin hf) j hj
    · rw [if_neg hf] at hj
      cases hj

/-- Concrete instantiation of `C5_hangul_decomposition` at `'한'`
(U+D55C = 54620, with a final consonant). -/
theorem C5_hangul_decomposition_witness :
    (0xAC00 ≤ 54620 ∧ 54620 ≤ 0xD7A3)
      ∧ (decomposeHangul 54620 =
            decomposeInitialPart (initials.getD ((54620 - 0xAC00) / 588) 0) ++
              decomposeMedialPart
                (medials.getD (((54620 - 0xAC00) % 588) / 28) 0) ++
              (if (54620 - 0xAC00) % 28 ≠ 0 then
                decomposeFinalPart (finals.getD ((54620 - 0xAC00) % 28) 0)
              else [])
          ∧ jamoDecompOk (initials.getD ((54620 - 0xAC00) / 588) 0)
              (decomposeInitialPart
                (initials.getD ((54620 - 0xAC00) / 588) 0)) = true
          ∧ jamoDecompOk (medials.getD (((54620 - 0xAC00) % 588) / 28) 0)
              (decomposeMedialPart
                (medials.getD (((54620 - 0xAC00) % 588) / 28) 0)) = true
          ∧ ((54620 - 0xAC00) % 28 ≠ 0 →
              jamoDecompOk (finals.getD ((54620 - 0xAC00) % 28) 0)
                (decomposeFinalPart
                  (finals.getD ((54620 - 0xAC00) % 28) 0)) = true)
          ∧ ∀ j ∈ decomposeHangul 54620, (morseMap j).isSome) :=
  ⟨⟨by norm_num, by norm_num⟩,
   C5_hangul_decomposition 54620 (by norm_num) (by norm_num)⟩

end MoseMelody
